import Mathlib

/-!
Formal model of the fabric defect detection controller
(`src/app/defect_detection.py` of the `jetson` repository).

The development shallowly embeds the parts of the program that the
specification talks about:

* the relay / resume-trigger state (`Status`, `wait_for_resume_signal`,
  the debounce automaton `waitRun`);
* the inspection main loop together with the background relay-pulse
  thread, as a small-step interleaving machine (`Config`, `Step`, `Run`);
* the telemetry store (two independent locks for the frame and the
  stats dictionary) as an interleaving machine (`TSys`, `TStep`, `TReach`);
* the timed behaviour of `pulse_relay` in isolation
  (`pulse_lineWrites`, `pulse_statusWrites`, `writeAt`);
* the shutdown / cleanup race between the main thread and an in-flight
  relay pulse (`runShut`, `shutdownRun`);
* the per-frame bookkeeping of the main loop (`processFrame`);
* the helper `to_hex_str`.

Machine reads of GPIO pins are modelled as a finite trace of boolean
samples (`List Bool`), one element per `GPIO.input` call; sleeping does
not consume samples.  Concurrency is modelled by explicit interleaving:
each lock-protected critical section and each individual shared-variable
write of the source is one atomic step of the corresponding machine.
-/

set_option maxHeartbeats 1000000

namespace DefectDetection

/-- The values ever stored in the `relay_status` cell or published to
`live_stats["relay_status"]` in the source.  The comment at line 57 of
`defect_detection.py` lists exactly these four strings:
`DETECTING, DEFECT_STOP, RELAY_ON, WAITING_RESUME`. -/
inductive Status where
  | detecting
  | relayOn
  | waitingResume
  | defectStop
deriving DecidableEq, Repr

/-- `DEBOUNCE_COUNT = 5` from `wait_for_resume_signal` (line 88). -/
def DEBOUNCE_COUNT : Nat := 5

/-- Control state of `wait_for_resume_signal` between two successive
`GPIO.input` reads:

* `clearHigh` — inside the `while GPIO.input(TRIGGER_PIN) == GPIO.HIGH`
  loop (lines 96-97): the pin was HIGH on entry and we wait for LOW;
* `polling` — at the top of the `while True:` loop (lines 102-104),
  about to take a fresh polling read;
* `debouncing k` — inside the debounce `for` loop (lines 106-112),
  with `k + 1` further consecutive HIGH reads still required before the
  count reaches `DEBOUNCE_COUNT` (so `high_count = DEBOUNCE_COUNT - (k+1)`
  so far). -/
inductive WState where
  | clearHigh
  | polling
  | debouncing (k : Nat)
deriving DecidableEq, Repr

/-- One `GPIO.input` read per list element.  Returns `some rest` when the
function returns (`rest` being the unread part of the trace), `none` when
the trace is exhausted without the function returning.  Mirrors lines
96-120 of the source: a LOW read during debouncing `break`s out of the
`for` loop and falls back to the top of the polling loop. -/
def waitRun : WState → List Bool → Option (List Bool)
  | _, [] => none
  | .clearHigh, b :: tr => if b then waitRun .clearHigh tr else waitRun .polling tr
  | .polling, b :: tr =>
      if b then waitRun (.debouncing (DEBOUNCE_COUNT - 1)) tr else waitRun .polling tr
  | .debouncing 0, b :: tr => if b then some tr else waitRun .polling tr
  | .debouncing (k+1), b :: tr => if b then waitRun (.debouncing k) tr else waitRun .polling tr

/-- `wait_for_resume_signal` (lines 84-123).  First component: the
relay-status values the call itself stores, in order — the source sets
`WAITING_RESUME` unconditionally at line 86, before the
`if RELAY_ENABLED and GPIO` test.  Second component: the result of the
polling phase.  When `relay_enabled` is false the call returns at once
without reading the pin (lines 121-123).  When enabled, the first trace
element is the `initial` read of line 91; if it is HIGH the stale-signal
clearing loop runs first, otherwise polling starts directly. -/
def wait_for_resume_signal (relay_enabled : Bool) (tr : List Bool) :
    List Status × Option (List Bool) :=
  ([Status.waitingResume],
    if relay_enabled then
      match tr with
      | [] => none
      | b :: tr2 => waitRun (if b then .clearHigh else .polling) tr2
    else some tr)

/-! ## The inspection loop / relay pulse interleaving machine

Models the main loop (lines 638-817) together with the background
`pulse_relay` thread (lines 69-82), with `ENABLE_WEB = true`.  One step
per shared-state access; the classifier and camera are abstracted into
the per-cycle detection count list `ds`; how long `wait_for_resume_signal`
blocks is abstracted into the single `resume` step. -/

/-- Position of the main thread inside one loop iteration. -/
inductive Phase where
  | top      -- about to run `set_relay_status("DETECTING")` (line 640)
  | acq      -- about to run `cam.MV_CC_GetImageBuffer` (line 644)
  | spawnP   -- defect branch: about to start the relay thread (line 743)
  | webdef   -- about to publish `DEFECT_STOP` to `live_stats` (line 750)
  | wset     -- about to run `set_relay_status("WAITING_RESUME")` (line 86)
  | waiting  -- blocked inside `wait_for_resume_signal`
  | pub      -- about to publish the end-of-iteration telemetry (line 809)
deriving DecidableEq, Repr

/-- Observable events of the machine. -/
inductive Ev where
  | setCell (s : Status)   -- a `set_relay_status(s)` call, by either thread
  | acquire                -- the frame acquisition of the next cycle
  | spawnEv                -- `relay_thread.start()`
  | setT (s : Status)      -- a write to `live_stats["relay_status"]`
deriving DecidableEq, Repr

/-- Shared state: remaining per-cycle detection counts, main-thread
phase, number of spawned `pulse_relay` threads that have not yet executed
their `set_relay_status("RELAY_ON")`, the `relay_status` cell, and the
`live_stats["relay_status"]` entry. -/
structure Config where
  ds : List Nat
  phase : Phase
  pending : Nat
  cell : Status
  tstat : Status
deriving DecidableEq, Repr

/-- Initial state: `relay_status = "DETECTING"` (line 57) and
`live_stats["relay_status"] = "DETECTING"` (line 172). -/
def initConfig (ds : List Nat) : Config :=
  ⟨ds, Phase.top, 0, Status.detecting, Status.detecting⟩

/-- One atomic step of either thread. -/
inductive Step : Config → Ev → Config → Prop
  | top (d : Nat) (ds : List Nat) (p : Nat) (c t : Status) :
      Step ⟨d :: ds, .top, p, c, t⟩ (.setCell .detecting) ⟨d :: ds, .acq, p, .detecting, t⟩
  | acqPos (d : Nat) (ds : List Nat) (p : Nat) (c t : Status) (h : 0 < d) :
      Step ⟨d :: ds, .acq, p, c, t⟩ .acquire ⟨d :: ds, .spawnP, p, c, t⟩
  | acqZero (ds : List Nat) (p : Nat) (c t : Status) :
      Step ⟨0 :: ds, .acq, p, c, t⟩ .acquire ⟨0 :: ds, .pub, p, c, t⟩
  | spawn (ds : List Nat) (p : Nat) (c t : Status) :
      Step ⟨ds, .spawnP, p, c, t⟩ .spawnEv ⟨ds, .webdef, p + 1, c, t⟩
  | webdef (ds : List Nat) (p : Nat) (c t : Status) :
      Step ⟨ds, .webdef, p, c, t⟩ (.setT .defectStop) ⟨ds, .wset, p, c, .defectStop⟩
  | wset (ds : List Nat) (p : Nat) (c t : Status) :
      Step ⟨ds, .wset, p, c, t⟩ (.setCell .waitingResume) ⟨ds, .waiting, p, .waitingResume, t⟩
  | resume (ds : List Nat) (p : Nat) (c t : Status) :
      Step ⟨ds, .waiting, p, c, t⟩ (.setCell .detecting) ⟨ds, .pub, p, .detecting, t⟩
  | pub (d : Nat) (ds : List Nat) (p : Nat) (c t : Status) :
      Step ⟨d :: ds, .pub, p, c, t⟩ (.setT c) ⟨ds, .top, p, c, c⟩
  | pulse (ds : List Nat) (ph : Phase) (p : Nat) (c t : Status) :
      Step ⟨ds, ph, p + 1, c, t⟩ (.setCell .relayOn) ⟨ds, ph, p, .relayOn, t⟩

/-- A finite run accumulating its event list. -/
inductive Run : Config → List Ev → Config → Prop
  | nil (c : Config) : Run c [] c
  | cons {c c' c'' : Config} {e : Ev} {evs : List Ev} :
      Step c e c' → Run c' evs c'' → Run c (e :: evs) c''

/-- The `relay_status`-cell writes of an event list, in order. -/
def cellSets (evs : List Ev) : List Status :=
  evs.filterMap (fun e => match e with | .setCell s => some s | _ => none)

/-! ## The telemetry store

`latest_frame` is guarded by `frame_lock` and `live_stats` by
`stats_lock` (lines 160-176); the main loop publishes them in two
separate critical sections (lines 797-798 and 799-812).  Each critical
section is one atomic step; the stored values are abstracted to the
index of the loop iteration that produced them. -/

/-- `frameC` / `statsC`: which iteration last wrote the frame / the
stats; `nextIsFrame`: whether the producer's next critical section is
the frame one; `cycle`: completed iterations. -/
structure TSys where
  frameC : Nat
  statsC : Nat
  nextIsFrame : Bool
  cycle : Nat
deriving DecidableEq, Repr

/-- One producer critical section. -/
inductive TStep : TSys → TSys → Prop
  | publishFrame (f s k : Nat) : TStep ⟨f, s, true, k⟩ ⟨k + 1, s, false, k⟩
  | publishStats (f s k : Nat) : TStep ⟨f, s, false, k⟩ ⟨f, k + 1, true, k + 1⟩

/-- States the store can be in; a reader holding the respective locks
observes exactly one such state. -/
inductive TReach : TSys → Prop
  | init : TReach ⟨0, 0, true, 0⟩
  | step {a b : TSys} : TReach a → TStep a b → TReach b

/-! ## `pulse_relay` in isolation (timed)

`pulse_relay` (lines 69-82) performs, at time `0` from its start:
`set_relay_status("RELAY_ON")` and `GPIO.output(RELAY_PIN, GPIO.LOW)`
(LOW = relay ON, i.e. line active), then sleeps `RELAY_ON_DURATION`
seconds and performs `GPIO.output(RELAY_PIN, GPIO.HIGH)` (inactive).
It contains no further status write: the status is set once, at the
start, and never reset by the pulse itself. -/

/-- Timed writes to the output line made by one `pulse_relay` run
started at time `0`; `true` = line active (relay ON). -/
def pulse_lineWrites (dur : ℚ) : List (ℚ × Bool) := [(0, true), (dur, false)]

/-- Timed `set_relay_status` writes made by one `pulse_relay` run. -/
def pulse_statusWrites (_dur : ℚ) : List (ℚ × Status) := [(0, Status.relayOn)]

/-- Value held at time `t` by a cell written by the chronologically
ordered timed writes `ws`; `none` before the first write. -/
def writeAt {α : Type} (ws : List (ℚ × α)) (t : ℚ) : Option α :=
  ((ws.filter (fun w => decide (w.1 ≤ t))).getLast?).map Prod.snd

/-! ## Shutdown cleanup versus an in-flight pulse

The cleanup block (lines 826-832) runs `GPIO.output(RELAY_PIN, GPIO.HIGH)`
(drive inactive) and then `GPIO.cleanup()` (release the pin).  A still
running `pulse_relay` daemon thread may interleave its own two writes
(`LOW` = activate, then after the sleep `HIGH` = deactivate) with these;
a GPIO write attempted after `GPIO.cleanup()` raises and does not drive
the line.  The daemon thread is killed at process exit, so it executes
only the prefix of its writes that the schedule grants it, while the
main thread always finishes its cleanup. -/

/-- A GPIO action during shutdown: drive the line (`true` = active) or
release the pin. -/
inductive SAct where
  | out (active : Bool)
  | release
deriving DecidableEq, Repr

/-- Shutdown state.  `mDeact` records that the cleanup's forced
deactivation has executed; `badPulse` records that a pulse activation
write executed after it (the race the design notes call out). -/
structure ShutSt where
  line : Bool
  released : Bool
  mDeact : Bool
  badPulse : Bool
deriving DecidableEq, Repr

def applyMain (st : ShutSt) : SAct → ShutSt
  | .out b => { st with line := b, mDeact := st.mDeact || !b }
  | .release => { st with released := true }

def applyPulse (st : ShutSt) : SAct → ShutSt
  | .out b =>
      if st.released then st
      else { st with line := b, badPulse := st.badPulse || (b && st.mDeact) }
  | .release => st

/-- The cleanup block's actions (lines 828 and 831). -/
def cleanupActs : List SAct := [SAct.out false, SAct.release]

/-- The line writes of `pulse_relay` (lines 74 and 79). -/
def pulseActs : List SAct := [SAct.out true, SAct.out false]

/-- Interleave the main thread's remaining actions `ms` with the pulse
thread's remaining actions `ps` according to `sch` (`true` = main moves).
When the schedule ends the process exits: the main thread completes its
remaining cleanup actions, the daemon pulse thread is killed. -/
def runShut : ShutSt → List SAct → List SAct → List Bool → ShutSt
  | st, ms, _, [] => ms.foldl applyMain st
  | st, m :: ms, ps, true :: sch => runShut (applyMain st m) ms ps sch
  | st, [], ps, true :: sch => runShut st [] ps sch
  | st, ms, p :: ps, false :: sch => runShut (applyPulse st p) ms ps sch
  | st, ms, [], false :: sch => runShut st ms [] sch

/-- Shutdown with an in-flight pulse that has not yet activated the
line; `line0` is the line state when cleanup starts. -/
def shutdownRun (line0 : Bool) (sch : List Bool) : ShutSt :=
  runShut ⟨line0, false, false, false⟩ cleanupActs pulseActs sch

/-! ## Per-frame bookkeeping of the main loop

Lines 675-726: `frame_count += 1`; if the frame has detections,
`defect_frame_count += 1` and one `defect_log` entry is appended per
detection.  The loop contains no image-file write: nothing is ever added
to the results folder during the run (the only file output is the CSV
defect log written at shutdown, line 856+).  `saved_files` models the
set of image files written to durable storage by the loop. -/

/-- One YOLO detection box as used by the loop (class index, confidence,
corner coordinates); float formatting is abstracted to the values. -/
structure Box where
  cls : Nat
  conf : ℚ
  x1 : Int
  y1 : Int
  x2 : Int
  y2 : Int
deriving DecidableEq, Repr

/-- One `defect_log` entry (lines 720-726). -/
structure LogEntry where
  time : String
  frame : Nat
  className : String
  confidence : ℚ
  bbox : (Int × Int) × (Int × Int)
deriving DecidableEq, Repr

structure LoopState where
  frame_count : Nat
  defect_frame_count : Nat
  defect_log : List LogEntry
  saved_files : List String
deriving DecidableEq, Repr

/-- The counter / log / file effects of one loop iteration on a frame
whose detections are `boxes` (`names` is `model.names`, `timeStr` the
formatted time).  Faithful to the source: no file is written. -/
def processFrame (names : Nat → String) (timeStr : String) (st : LoopState)
    (boxes : List Box) : LoopState :=
  let st1 := { st with frame_count := st.frame_count + 1 }
  if 0 < boxes.length then
    { st1 with
        defect_frame_count := st1.defect_frame_count + 1,
        defect_log := st1.defect_log ++ boxes.map (fun b =>
          ⟨timeStr, st1.frame_count, names b.cls, b.conf, ((b.x1, b.y1), (b.x2, b.y2))⟩) }
  else st1

/-! ## `to_hex_str` (lines 442-453)

Python strings are embedded as `List Char`. -/

/-- `chaDic.get(digit, str(digit))`. -/
def chaDicGet (digit : Nat) : List Char :=
  match digit with
  | 10 => ['a']
  | 11 => ['b']
  | 12 => ['c']
  | 13 => ['d']
  | 14 => ['e']
  | 15 => ['f']
  | d => (Nat.repr d).data

/-- The `while num >= 16` loop plus the final digit prepend. -/
def hexLoop (num : Nat) (hexStr : List Char) : List Char :=
  if _h : 16 ≤ num then hexLoop (num / 16) (chaDicGet (num % 16) ++ hexStr)
  else chaDicGet num ++ hexStr
termination_by num
decreasing_by exact Nat.div_lt_self (by omega) (by omega)

/-- `to_hex_str` on a Python `int`. -/
def to_hex_str (num : Int) : List Char :=
  let n : Int := if num < 0 then num + 2 ^ 32 else num
  hexLoop n.toNat []

/-- Numeric value of a lowercase hex digit character. -/
def hexCharVal (c : Char) : Option Nat :=
  if '0' ≤ c ∧ c ≤ '9' then some (c.toNat - 48)
  else if 'a' ≤ c ∧ c ≤ 'f' then some (c.toNat - 87)
  else none

/-- The number denoted by a string of hex digits. -/
def hexValue (l : List Char) : Nat :=
  l.foldl (fun a c => 16 * a + (hexCharVal c).getD 0) 0

/-! # Theorems -/

/-- Helper: `DEBOUNCE_COUNT` is positive. -/
theorem debounce_count_pos : 1 ≤ DEBOUNCE_COUNT := by decide

/-- Helper: prepending one more `true` to a block of `true`s. -/
theorem replicate_true_cons (n : Nat) (r : List Bool) :
    true :: (List.replicate n true ++ r) = List.replicate (n + 1) true ++ r := by
  simp [List.replicate_succ]

/-- Helper: a successful `waitRun` means the consumed part of the trace
ends in a block of consecutive HIGH reads immediately before the unread
remainder: `k + 1` of them when the run starts mid-debounce needing
`k + 1` more, and otherwise a full `DEBOUNCE_COUNT + 1` block — the
polling read that observed HIGH plus `DEBOUNCE_COUNT` confirmations. -/
theorem waitRun_some_block (tr : List Bool) : ∀ (s : WState) (rest : List Bool),
    waitRun s tr = some rest →
    (∃ k, s = WState.debouncing k ∧ tr = List.replicate (k + 1) true ++ rest) ∨
    (∃ pre, tr = pre ++ List.replicate (DEBOUNCE_COUNT + 1) true ++ rest) := by
  induction tr with
  | nil =>
    intro s rest h
    cases s with
    | clearHigh => simp [waitRun] at h
    | polling => simp [waitRun] at h
    | debouncing k => cases k <;> simp [waitRun] at h
  | cons b tr ih =>
    intro s rest h
    cases s with
    | clearHigh =>
      cases b with
      | true =>
        simp only [waitRun, if_pos] at h
        rcases ih _ _ h with ⟨k, hk, _⟩ | ⟨pre, hp⟩
        · exact absurd hk (by simp)
        · exact Or.inr ⟨true :: pre, by simp [hp]⟩
      | false =>
        simp only [waitRun, Bool.false_eq_true, if_neg, not_false_iff] at h
        rcases ih _ _ h with ⟨k, hk, _⟩ | ⟨pre, hp⟩
        · exact absurd hk (by simp)
        · exact Or.inr ⟨false :: pre, by simp [hp]⟩
    | polling =>
      cases b with
      | true =>
        simp only [waitRun, if_pos] at h
        rcases ih _ _ h with ⟨k, hk, htr⟩ | ⟨pre, hp⟩
        · have hk5 : k = DEBOUNCE_COUNT - 1 := by
            cases hk; rfl
          subst hk5
          refine Or.inr ⟨[], ?_⟩
          rw [htr, List.nil_append, replicate_true_cons]
          have : DEBOUNCE_COUNT - 1 + 1 + 1 = DEBOUNCE_COUNT + 1 := by decide
          rw [this]
        · exact Or.inr ⟨true :: pre, by simp [hp]⟩
      | false =>
        simp only [waitRun, Bool.false_eq_true, if_neg, not_false_iff] at h
        rcases ih _ _ h with ⟨k, hk, _⟩ | ⟨pre, hp⟩
        · exact absurd hk (by simp)
        · exact Or.inr ⟨false :: pre, by simp [hp]⟩
    | debouncing k =>
      cases k with
      | zero =>
        cases b with
        | true =>
          simp only [waitRun, if_pos, Option.some.injEq] at h
          subst h
          exact Or.inl ⟨0, rfl, by simp [List.replicate_succ]⟩
        | false =>
          simp only [waitRun, Bool.false_eq_true, if_neg, not_false_iff] at h
          rcases ih _ _ h with ⟨j, hj, _⟩ | ⟨pre, hp⟩
          · exact absurd hj (by simp)
          · exact Or.inr ⟨false :: pre, by simp [hp]⟩
      | succ j =>
        cases b with
        | true =>
          simp only [waitRun, if_pos] at h
          rcases ih _ _ h with ⟨i, hi, htr⟩ | ⟨pre, hp⟩
          · have hji : j = i := by injection hi
            rw [← hji] at htr
            refine Or.inl ⟨j + 1, rfl, ?_⟩
            rw [htr, replicate_true_cons]
          · exact Or.inr ⟨true :: pre, by simp [hp]⟩
        | false =>
          simp only [waitRun, Bool.false_eq_true, if_neg, not_false_iff] at h
          rcases ih _ _ h with ⟨i, hi, _⟩ | ⟨pre, hp⟩
          · exact absurd hi (by simp)
          · exact Or.inr ⟨false :: pre, by simp [hp]⟩

/-- Helper: from the polling state, a successful `waitRun` means a HIGH
polling read followed by `DEBOUNCE_COUNT` HIGH confirmations immediately
precede the unread remainder. -/
theorem waitRun_polling_some (tr rest : List Bool)
    (h : waitRun WState.polling tr = some rest) :
    ∃ pre, tr = pre ++ List.replicate (DEBOUNCE_COUNT + 1) true ++ rest := by
  rcases waitRun_some_block tr _ _ h with ⟨k, hk, _⟩ | hp
  · exact absurd hk (by simp)
  · exact hp

/-- Helper: from the stale-signal clearing state, a successful `waitRun`
first consumes only HIGH reads, then one LOW read, and only then can the
polling phase succeed. -/
theorem waitRun_clearHigh_some (tr : List Bool) : ∀ (rest : List Bool),
    waitRun WState.clearHigh tr = some rest →
    ∃ highs tr2, tr = highs ++ false :: tr2 ∧ highs.all (fun b => b) = true ∧
      waitRun WState.polling tr2 = some rest := by
  induction tr with
  | nil => intro rest h; simp [waitRun] at h
  | cons b tr ih =>
    intro rest h
    cases b with
    | true =>
      simp only [waitRun, if_pos] at h
      rcases ih _ h with ⟨highs, tr2, heq, hall, hrun⟩
      exact ⟨true :: highs, tr2, by simp [heq], by simp [hall], hrun⟩
    | false =>
      simp only [waitRun, Bool.false_eq_true, if_neg, not_false_iff] at h
      exact ⟨[], tr, rfl, rfl, h⟩

/-- Claim C3: with digital I/O available, `wait_for_resume_signal`
returns only after a read observing the line active followed by
`DEBOUNCE_COUNT` consecutive active debounce samples (a contiguous block
of `DEBOUNCE_COUNT + 1` active reads immediately precedes the unread
remainder of the trace); and whenever a debounce sample reads inactive,
the attempt does not return: the partial confirmation count is discarded
and the automaton resumes polling from scratch. -/
theorem c3_debounce_confirmation :
    (∀ tr rest : List Bool,
      (wait_for_resume_signal true tr).2 = some rest →
      ∃ pre, tr = pre ++ List.replicate (DEBOUNCE_COUNT + 1) true ++ rest) ∧
    (∀ (k : Nat) (tr : List Bool),
      waitRun (WState.debouncing k) (false :: tr) = waitRun WState.polling tr) := by
  constructor
  · intro tr rest h
    simp only [wait_for_resume_signal, if_pos] at h
    match tr, h with
    | b :: tr2, h =>
      rcases waitRun_some_block tr2 _ _ h with ⟨k, hk, _⟩ | ⟨pre, hp⟩
      · exact absurd hk (by cases b <;> simp)
      · exact ⟨b :: pre, by simp [hp]⟩
  · intro k tr
    cases k <;> simp [waitRun]

/-- Witness for C3 on a concrete trace: initial read LOW, then a HIGH
polling read confirmed by five HIGH debounce samples. -/
theorem c3_debounce_confirmation_witness :
    ∃ pre, [false, true, true, true, true, true, true] =
      pre ++ List.replicate (DEBOUNCE_COUNT + 1) true ++ [] :=
  c3_debounce_confirmation.1 [false, true, true, true, true, true, true] [] rfl

/-- Claim C4: if the line is already active on entry (first read HIGH),
a returning call first consumes only HIGH reads, then observes the line
inactive, and only afterwards reconfirms it active with a contiguous
block of `DEBOUNCE_COUNT + 1` active reads (the polling read plus
`DEBOUNCE_COUNT` debounce confirmations) immediately before the unread
remainder. -/
theorem c4_stale_signal_cleared (tr rest : List Bool)
    (h : (wait_for_resume_signal true (true :: tr)).2 = some rest) :
    ∃ highs pre, tr = highs ++ false :: (pre ++ List.replicate (DEBOUNCE_COUNT + 1) true ++ rest) ∧
      highs.all (fun b => b) = true := by
  simp only [wait_for_resume_signal, if_pos] at h
  rcases waitRun_clearHigh_some tr _ h with ⟨highs, tr2, heq, hall, hrun⟩
  rcases waitRun_polling_some tr2 rest hrun with ⟨pre, hp⟩
  exact ⟨highs, pre, by rw [heq, hp], hall⟩

/-- Witness for C4: line HIGH at entry, goes LOW, then a confirmed
resume block. -/
theorem c4_stale_signal_cleared_witness :
    ∃ highs pre,
      [true, false, true, true, true, true, true, true] =
        highs ++ false :: (pre ++ List.replicate (DEBOUNCE_COUNT + 1) true ++ []) ∧
      highs.all (fun b => b) = true :=
  c4_stale_signal_cleared [true, false, true, true, true, true, true, true] [] rfl

/-! ## Machine invariants and runs (C1, C5, C6) -/

/-- Helper: every step lands in a state where, if the main thread is
about to acquire a frame, the status cell is not `WaitingResume` — the
cell was just set to `Detecting` at the loop top, and a late pulse can
only overwrite it with `RelayOn`. -/
theorem step_acq_cell {c c' : Config} {e : Ev} (h : Step c e c') :
    c'.phase = Phase.acq → c'.cell ≠ Status.waitingResume := by
  cases h <;> simp

/-- Helper: the acquire-phase invariant holds along every run. -/
theorem run_acq_not_waiting {c0 : Config} {evs : List Ev} {c : Config}
    (hrun : Run c0 evs c)
    (h0 : c0.phase = Phase.acq → c0.cell ≠ Status.waitingResume) :
    c.phase = Phase.acq → c.cell ≠ Status.waitingResume := by
  induction hrun with
  | nil _ => exact h0
  | cons hstep _ ih => exact ih (step_acq_cell hstep)

/-- Helper: no step ever writes `DEFECT_STOP` into the `relay_status`
cell (only `live_stats` receives it). -/
theorem step_cell_not_defectStop {c c' : Config} {e : Ev} (h : Step c e c')
    (hc : c.cell ≠ Status.defectStop) : c'.cell ≠ Status.defectStop := by
  cases h <;> simp_all

/-- Helper: the cell never holds `DEFECT_STOP` along any run. -/
theorem run_cell_not_defectStop {c0 : Config} {evs : List Ev} {c : Config}
    (hrun : Run c0 evs c) (h0 : c0.cell ≠ Status.defectStop) :
    c.cell ≠ Status.defectStop := by
  induction hrun with
  | nil _ => exact h0
  | cons hstep _ ih => exact ih (step_cell_not_defectStop hstep h0)

/-- Claim C1, counterexample: the `pulse_relay` thread is started and
never joined, so its `set_relay_status("RELAY_ON")` may be scheduled
after the main thread's `set_relay_status("WAITING_RESUME")`.  The
single-defect-cycle run below is a legal interleaving whose status-cell
sequence is `Detecting, WaitingResume, RelayOn, Detecting`, refuting the
claim that every defect cycle passes through exactly
`Detecting → RelayOn → WaitingResume → Detecting`. -/
theorem c1_cycle_sequence_counterexample :
    ¬ (∀ (evs : List Ev) (final : Config),
        Run (initConfig [1]) evs final → final.ds = [] → final.phase = Phase.top →
        cellSets evs =
          [Status.detecting, Status.relayOn, Status.waitingResume, Status.detecting]) := by
  intro hclaim
  have hrun : Run (initConfig [1])
      [.setCell .detecting, .acquire, .spawnEv, .setT .defectStop,
       .setCell .waitingResume, .setCell .relayOn, .setCell .detecting, .setT .detecting]
      ⟨[], Phase.top, 0, Status.detecting, Status.detecting⟩ :=
    Run.cons (Step.top 1 [] 0 Status.detecting Status.detecting)
      (Run.cons (Step.acqPos 1 [] 0 Status.detecting Status.detecting (by decide))
        (Run.cons (Step.spawn [1] 0 Status.detecting Status.detecting)
          (Run.cons (Step.webdef [1] 1 Status.detecting Status.detecting)
            (Run.cons (Step.wset [1] 1 Status.detecting Status.defectStop)
              (Run.cons (Step.pulse [1] Phase.waiting 0 Status.waitingResume Status.defectStop)
                (Run.cons (Step.resume [1] 0 Status.relayOn Status.defectStop)
                  (Run.cons (Step.pub 1 [] 0 Status.detecting Status.defectStop)
                    (Run.nil _))))))))
  have h := hclaim _ _ hrun rfl rfl
  exact absurd h (by decide)

/-- Claim C1, amended: the intended scheduling (the pulse thread runs
as soon as it is spawned) does realize exactly the sequence
`Detecting → RelayOn → WaitingResume → Detecting` for a defect cycle;
and in **every** interleaving the loop never performs a frame
acquisition while the status cell is `WaitingResume`. -/
theorem c1_cycle_sequence_amended :
    (∃ final, Run (initConfig [1])
        [.setCell .detecting, .acquire, .spawnEv, .setCell .relayOn, .setT .defectStop,
         .setCell .waitingResume, .setCell .detecting, .setT .detecting] final ∧
      cellSets
        [.setCell .detecting, .acquire, .spawnEv, .setCell .relayOn, .setT .defectStop,
         .setCell .waitingResume, .setCell .detecting, .setT .detecting] =
        [Status.detecting, Status.relayOn, Status.waitingResume, Status.detecting]) ∧
    (∀ (ds : List Nat) (evs : List Ev) (c : Config),
      Run (initConfig ds) evs c → c.phase = Phase.acq → c.cell ≠ Status.waitingResume) := by
  constructor
  · refine ⟨⟨[], Phase.top, 0, Status.detecting, Status.detecting⟩, ?_, by decide⟩
    exact
      Run.cons (Step.top 1 [] 0 Status.detecting Status.detecting)
        (Run.cons (Step.acqPos 1 [] 0 Status.detecting Status.detecting (by decide))
          (Run.cons (Step.spawn [1] 0 Status.detecting Status.detecting)
            (Run.cons (Step.pulse [1] Phase.webdef 0 Status.detecting Status.detecting)
              (Run.cons (Step.webdef [1] 0 Status.relayOn Status.detecting)
                (Run.cons (Step.wset [1] 0 Status.relayOn Status.defectStop)
                  (Run.cons (Step.resume [1] 0 Status.waitingResume Status.defectStop)
                    (Run.cons (Step.pub 1 [] 0 Status.detecting Status.defectStop)
                      (Run.nil _))))))))
  · intro ds evs c hrun
    exact run_acq_not_waiting hrun (by simp [initConfig])

/-- Witness for the universally quantified half of the amended C1, at a
concrete one-step run ending in the acquisition phase. -/
theorem c1_cycle_sequence_amended_witness :
    (⟨[0], Phase.acq, 0, Status.detecting, Status.detecting⟩ : Config).cell ≠
      Status.waitingResume :=
  c1_cycle_sequence_amended.2 [0] [.setCell .detecting]
    ⟨[0], Phase.acq, 0, Status.detecting, Status.detecting⟩
    (Run.cons (Step.top 0 [] 0 Status.detecting Status.detecting) (Run.nil _)) rfl

/-- Claim C5, counterexample: `wait_for_resume_signal` executes
`set_relay_status("WAITING_RESUME")` (line 86) before it checks whether
digital I/O is available, so even in degraded mode the call publishes
the waiting state — the cycle does not go directly back to `Detecting`
without entering a waiting state. -/
theorem c5_degraded_mode_counterexample :
    Status.waitingResume ∈ (wait_for_resume_signal false []).1 := by
  simp [wait_for_resume_signal]

/-- Claim C5, amended: with digital I/O unavailable or disabled,
`wait_for_resume_signal` returns immediately without reading the input
line (the whole trace is left unread), and a defect cycle still runs
`Detecting → RelayOn → WaitingResume → Detecting` without blocking —
the status passes momentarily through `WaitingResume` (set
unconditionally at the start of the call) rather than skipping it. -/
theorem c5_degraded_mode_amended :
    (∀ tr : List Bool,
      wait_for_resume_signal false tr = ([Status.waitingResume], some tr)) ∧
    (∃ final, Run (initConfig [1])
        [.setCell .detecting, .acquire, .spawnEv, .setCell .relayOn, .setT .defectStop,
         .setCell .waitingResume, .setCell .detecting, .setT .detecting] final ∧
      cellSets
        [.setCell .detecting, .acquire, .spawnEv, .setCell .relayOn, .setT .defectStop,
         .setCell .waitingResume, .setCell .detecting, .setT .detecting] =
        [Status.detecting, Status.relayOn, Status.waitingResume, Status.detecting]) := by
  constructor
  · intro tr; rfl
  · refine ⟨⟨[], Phase.top, 0, Status.detecting, Status.detecting⟩, ?_, by decide⟩
    exact
      Run.cons (Step.top 1 [] 0 Status.detecting Status.detecting)
        (Run.cons (Step.acqPos 1 [] 0 Status.detecting Status.detecting (by decide))
          (Run.cons (Step.spawn [1] 0 Status.detecting Status.detecting)
            (Run.cons (Step.pulse [1] Phase.webdef 0 Status.detecting Status.detecting)
              (Run.cons (Step.webdef [1] 0 Status.relayOn Status.detecting)
                (Run.cons (Step.wset [1] 0 Status.relayOn Status.defectStop)
                  (Run.cons (Step.resume [1] 0 Status.waitingResume Status.defectStop)
                    (Run.cons (Step.pub 1 [] 0 Status.detecting Status.defectStop)
                      (Run.nil _))))))))

/-- Claim C6, counterexample: the defect branch of the main loop writes
the fourth value `DEFECT_STOP` into `live_stats["relay_status"]`
(line 750), so the status observable through telemetry is not always one
of the three enum members. -/
theorem c6_status_enum_counterexample :
    ¬ (∀ (evs : List Ev) (c : Config), Run (initConfig [1]) evs c →
        c.tstat = Status.detecting ∨ c.tstat = Status.relayOn ∨
          c.tstat = Status.waitingResume) := by
  intro hclaim
  have hrun : Run (initConfig [1])
      [.setCell .detecting, .acquire, .spawnEv, .setT .defectStop]
      ⟨[1], Phase.wset, 1, Status.detecting, Status.defectStop⟩ :=
    Run.cons (Step.top 1 [] 0 Status.detecting Status.detecting)
      (Run.cons (Step.acqPos 1 [] 0 Status.detecting Status.detecting (by decide))
        (Run.cons (Step.spawn [1] 0 Status.detecting Status.detecting)
          (Run.cons (Step.webdef [1] 1 Status.detecting Status.detecting)
            (Run.nil _))))
  have h := hclaim _ _ hrun
  exact absurd h (by decide)

/-- Claim C6, amended: the `relay_status` cell itself always holds
exactly one of the three enum members `Detecting`, `RelayOn`,
`WaitingResume` — no `set_relay_status` call ever stores anything else —
but the telemetry copy additionally takes the value `DEFECT_STOP`,
written transiently by the defect branch. -/
theorem c6_status_enum_amended :
    (∀ (ds : List Nat) (evs : List Ev) (c : Config),
      Run (initConfig ds) evs c →
      c.cell = Status.detecting ∨ c.cell = Status.relayOn ∨
        c.cell = Status.waitingResume) ∧
    (∃ evs c, Run (initConfig [1]) evs c ∧ c.tstat = Status.defectStop) := by
  constructor
  · intro ds evs c hrun
    have h := run_cell_not_defectStop hrun (by simp [initConfig])
    cases hc : c.cell <;> simp_all
  · refine ⟨[.setCell .detecting, .acquire, .spawnEv, .setT .defectStop],
      ⟨[1], Phase.wset, 1, Status.detecting, Status.defectStop⟩, ?_, rfl⟩
    exact
      Run.cons (Step.top 1 [] 0 Status.detecting Status.detecting)
        (Run.cons (Step.acqPos 1 [] 0 Status.detecting Status.detecting (by decide))
          (Run.cons (Step.spawn [1] 0 Status.detecting Status.detecting)
            (Run.cons (Step.webdef [1] 1 Status.detecting Status.detecting)
              (Run.nil _))))

/-- Witness for the universally quantified half of the amended C6, at
the empty run. -/
theorem c6_status_enum_amended_witness :
    (initConfig []).cell = Status.detecting ∨ (initConfig []).cell = Status.relayOn ∨
      (initConfig []).cell = Status.waitingResume :=
  c6_status_enum_amended.1 [] [] (initConfig []) (Run.nil _)

/-! ## Telemetry store (C2) -/

/-- Helper: inductive invariant of the telemetry store: between the two
critical sections of an iteration the frame is exactly one cycle ahead
of the stats, otherwise they agree. -/
theorem treach_invariant {s : TSys} (h : TReach s) :
    (s.nextIsFrame = true → s.frameC = s.statsC ∧ s.cycle = s.statsC) ∧
    (s.nextIsFrame = false → s.frameC = s.statsC + 1 ∧ s.cycle = s.statsC) := by
  induction h with
  | init => simp
  | step _ hs ih =>
    cases hs with
    | publishFrame f st k =>
      obtain ⟨hf, hk⟩ := ih.1 rfl
      have hf' : f = st := hf
      have hk' : k = st := hk
      refine ⟨fun hx => by simp at hx, fun _ => ⟨?_, ?_⟩⟩
      · show k + 1 = st + 1; omega
      · show k = st; omega
    | publishStats f st k =>
      obtain ⟨hf, hk⟩ := ih.2 rfl
      have hf' : f = st + 1 := hf
      have hk' : k = st := hk
      refine ⟨fun _ => ⟨?_, ?_⟩, fun hx => by simp at hx⟩
      · show f = k + 1; omega
      · show k + 1 = k + 1; rfl

/-- Claim C2, counterexample: the frame and the stats live under two
different locks and are published in two separate critical sections
(lines 797-798 versus 799-812), so after the frame critical section of
an iteration and before its stats critical section, a reader observes
the new frame paired with the previous iteration's counters.  The state
below is reachable and pairs the frame of cycle 1 with the counters of
cycle 0. -/
theorem c2_snapshot_consistency_counterexample :
    ¬ (∀ s : TSys, TReach s → s.frameC = s.statsC) := by
  intro hclaim
  have hr : TReach ⟨1, 0, false, 0⟩ :=
    TReach.step TReach.init (TStep.publishFrame 0 0 0)
  exact absurd (hclaim _ hr) (by decide)

/-- Claim C2, amended: each of the frame and the stats snapshot is
individually written atomically (its lock makes each critical section
one step of the model), and a reader's combined observation is never
more than one cycle skewed: the observed frame is from the same
iteration as the observed counters or from the directly following one —
never the other way round, and never from further apart. -/
theorem c2_snapshot_consistency_amended (s : TSys) (h : TReach s) :
    s.frameC = s.statsC ∨ s.frameC = s.statsC + 1 := by
  rcases hb : s.nextIsFrame with _ | _
  · exact Or.inr ((treach_invariant h).2 hb).1
  · exact Or.inl ((treach_invariant h).1 hb).1

/-- Witness for the amended C2 at the initial store state. -/
theorem c2_snapshot_consistency_amended_witness :
    (⟨0, 0, true, 0⟩ : TSys).frameC = (⟨0, 0, true, 0⟩ : TSys).statsC ∨
      (⟨0, 0, true, 0⟩ : TSys).frameC = (⟨0, 0, true, 0⟩ : TSys).statsC + 1 :=
  c2_snapshot_consistency_amended _ TReach.init

/-! ## The relay pulse contract (C7) -/

/-- Claim C7, counterexample: `pulse_relay` sets the status cell to
`RELAY_ON` at the start of the hold and contains no further status
write, so nothing in the pulse ends the `RelayOn` status when the hold
ends: with the default two-second duration, at time 3 — after the line
has already been driven inactive — the pulse's status writes still leave
the cell at `RelayOn`, refuting "`RelayOn` for the duration of the hold
and not beyond it". -/
theorem c7_pulse_contract_counterexample :
    ¬ (∀ t : ℚ, 2 < t → writeAt (pulse_statusWrites 2) t ≠ some Status.relayOn) := by
  intro hclaim
  refine hclaim 3 (by norm_num) ?_
  simp [writeAt, pulse_statusWrites, List.filter]

/-- Claim C7, amended: `pulse_relay` drives the output line active at
the start, holds it active for exactly the configured duration, then
drives it inactive (the line is driven active precisely on `[0, dur)`
and inactive from `dur` on); it runs without blocking its caller (the
main thread reaches the blocking resume wait while the spawned pulse has
not yet executed); but its only status write is a single `RelayOn` at
the start of the hold — the status is neither maintained for the hold
nor reset at its end. -/
theorem c7_pulse_contract_amended (dur : ℚ) (hdur : 0 < dur) :
    (∀ t : ℚ, 0 ≤ t → t < dur → writeAt (pulse_lineWrites dur) t = some true) ∧
    (∀ t : ℚ, dur ≤ t → writeAt (pulse_lineWrites dur) t = some false) ∧
    (∀ t : ℚ, t < 0 → writeAt (pulse_lineWrites dur) t = none) ∧
    pulse_statusWrites dur = [(0, Status.relayOn)] ∧
    (∃ evs final,
      Run ⟨[1], Phase.spawnP, 0, Status.detecting, Status.detecting⟩ evs final ∧
      final.phase = Phase.waiting ∧ final.pending = 1) := by
  refine ⟨?_, ?_, ?_, rfl, ?_⟩
  · intro t h0 hlt
    have hd : ¬ dur ≤ t := not_le.mpr hlt
    simp [writeAt, pulse_lineWrites, List.filter, h0, hd]
  · intro t hd
    have h0 : (0:ℚ) ≤ t := le_trans hdur.le hd
    simp [writeAt, pulse_lineWrites, List.filter, h0, hd]
  · intro t hneg
    have h0 : ¬ (0:ℚ) ≤ t := not_le.mpr hneg
    have hd : ¬ dur ≤ t := fun h => h0 (le_trans hdur.le h)
    simp [writeAt, pulse_lineWrites, List.filter, h0, hd]
  · refine ⟨[.spawnEv, .setT .defectStop, .setCell .waitingResume],
      ⟨[1], Phase.waiting, 1, Status.waitingResume, Status.defectStop⟩, ?_, rfl, rfl⟩
    exact
      Run.cons (Step.spawn [1] 0 Status.detecting Status.detecting)
        (Run.cons (Step.webdef [1] 1 Status.detecting Status.detecting)
          (Run.cons (Step.wset [1] 1 Status.detecting Status.defectStop)
            (Run.nil _)))

/-- Witness for the amended C7 at the default two-second duration,
sampling the line mid-hold. -/
theorem c7_pulse_contract_amended_witness :
    (0:ℚ) < 2 ∧ (0:ℚ) ≤ 1 ∧ (1:ℚ) < 2 ∧
      writeAt (pulse_lineWrites 2) 1 = some true :=
  ⟨by norm_num, by norm_num, by norm_num,
    (c7_pulse_contract_amended 2 (by norm_num)).1 1 (by norm_num) (by norm_num)⟩

/-! ## Shutdown cleanup (C8) -/

/-- Helper: pulse-thread actions never change the `mDeact` flag. -/
theorem applyPulse_mDeact (st : ShutSt) (p : SAct) :
    (applyPulse st p).mDeact = st.mDeact := by
  cases p with
  | out b =>
    by_cases hr : st.released <;> simp [applyPulse, hr]
  | release => rfl

/-- Helper: pulse-thread actions preserve the safety implication
"once the cleanup deactivation has run and no pulse activation followed
it, the line is inactive". -/
theorem applyPulse_safe (st : ShutSt) (p : SAct)
    (h : st.mDeact = true → st.badPulse = false → st.line = false) :
    (applyPulse st p).mDeact = true → (applyPulse st p).badPulse = false →
      (applyPulse st p).line = false := by
  cases p with
  | out b =>
    by_cases hr : st.released
    · simpa [applyPulse, hr] using h
    · simp only [applyPulse, hr, if_neg, Bool.not_eq_true]
      intro hmd hbad
      simp [hmd] at hbad
      simp [hbad.2]
  | release => exact h

/-- Helper: over any schedule, if no pulse activation write executes
after the cleanup's forced deactivation, the line ends inactive. -/
theorem runShut_safe : ∀ (sch : List Bool) (ms ps : List SAct) (st : ShutSt),
    (ms = [SAct.out false, SAct.release] ∨ ms = [SAct.release] ∨ ms = []) →
    (ms = [SAct.out false, SAct.release] ∨ st.mDeact = true) →
    (st.mDeact = true → st.badPulse = false → st.line = false) →
    (runShut st ms ps sch).badPulse = false → (runShut st ms ps sch).line = false := by
  intro sch
  induction sch with
  | nil =>
    intro ms ps st hms hmd hline hbad
    rcases hms with h | h | h <;> subst h
    · simp [runShut, applyMain]
    · have hmd' : st.mDeact = true := by
        rcases hmd with h | h
        · exact absurd h (by simp)
        · exact h
      simp only [runShut, List.foldl, applyMain] at hbad ⊢
      exact hline hmd' hbad
    · simp only [runShut, List.foldl] at hbad ⊢
      have hmd' : st.mDeact = true := by
        rcases hmd with h | h
        · exact absurd h (by simp)
        · exact h
      exact hline hmd' hbad
  | cons pick sch ih =>
    intro ms ps st hms hmd hline
    cases pick with
    | true =>
      rcases hms with h | h | h <;> subst h
      · simp only [runShut]
        refine ih [SAct.release] ps _ (Or.inr (Or.inl rfl)) (Or.inr ?_) ?_
        · simp [applyMain]
        · intro _ _; simp [applyMain]
      · simp only [runShut]
        have hmd' : st.mDeact = true := by
          rcases hmd with h | h
          · exact absurd h (by simp)
          · exact h
        refine ih [] ps _ (Or.inr (Or.inr rfl)) (Or.inr ?_) ?_
        · simpa [applyMain] using hmd'
        · intro _ hb
          exact hline hmd' (by simpa [applyMain] using hb)
      · simp only [runShut]
        have hmd' : st.mDeact = true := by
          rcases hmd with h | h
          · exact absurd h (by simp)
          · exact h
        exact ih [] ps st (Or.inr (Or.inr rfl)) (Or.inr hmd') hline
    | false =>
      cases ps with
      | nil =>
        simp only [runShut]
        exact ih ms [] st hms hmd hline
      | cons p ps =>
        simp only [runShut]
        refine ih ms ps _ hms ?_ (applyPulse_safe st p hline)
        rcases hmd with h | h
        · exact Or.inl h
        · exact Or.inr (by rw [applyPulse_mDeact]; exact h)

/-- Claim C8, counterexample: if the interrupt arrives after the relay
thread is spawned but before the pulse has driven the line, the
cleanup's forced deactivation (line 828) can execute first and the
pulse's activation write (line 74) after it, re-driving the line active
before `GPIO.cleanup()` releases the pin; the daemon pulse thread is
then killed at process exit before its own deactivation.  Under that
schedule the line ends active, refuting the unconditional guarantee. -/
theorem c8_shutdown_safe_counterexample :
    ¬ (∀ (line0 : Bool) (sch : List Bool), (shutdownRun line0 sch).line = false) := by
  intro hclaim
  exact absurd (hclaim false [true, false]) (by decide)

/-- Claim C8, amended: the relay output line is inactive after process
shutdown provided no pulse activation write executes after the cleanup's
forced deactivation — in particular whenever the in-flight pulse had
already driven the line (or finished, or never ran) before cleanup.  The
one exception is the race in which a freshly spawned pulse activates the
line between the cleanup's deactivation and the pin release. -/
theorem c8_shutdown_safe_amended (line0 : Bool) (sch : List Bool)
    (h : (shutdownRun line0 sch).badPulse = false) :
    (shutdownRun line0 sch).line = false :=
  runShut_safe sch cleanupActs pulseActs ⟨line0, false, false, false⟩
    (Or.inl rfl) (Or.inl rfl) (fun hmd _ => absurd hmd (by simp)) h

/-- Witness for the amended C8: the schedule in which cleanup runs
before the pulse thread is ever scheduled. -/
theorem c8_shutdown_safe_amended_witness :
    (shutdownRun false []).badPulse = false ∧ (shutdownRun false []).line = false :=
  ⟨by decide, c8_shutdown_safe_amended false [] (by decide)⟩

/-! ## Defect-cycle bookkeeping (C9) -/

/-- Claim C9, behaviour at the failing input: a cycle with `d > 0`
detections appends exactly `d` entries to `defect_log` and increments
`defect_frame_count` by exactly 1, but writes **no** image file: the
loop body contains no save call, so nothing is persisted to durable
storage, contradicting the module docstring ("Saves ONLY frames with
defects"), the startup banner, and the "Frames Saved" counter name. -/
theorem c9_defect_cycle_effects (names : Nat → String) (timeStr : String)
    (st : LoopState) (boxes : List Box) (h : boxes ≠ []) :
    (processFrame names timeStr st boxes).defect_log.length =
        st.defect_log.length + boxes.length ∧
    (processFrame names timeStr st boxes).defect_frame_count =
        st.defect_frame_count + 1 ∧
    (processFrame names timeStr st boxes).saved_files = st.saved_files := by
  have hpos : 0 < boxes.length := List.length_pos.mpr h
  refine ⟨?_, ?_, ?_⟩ <;> simp [processFrame, hpos]

/-- Witness for C9 at the spec's concrete scenario: one frame with two
detections (class "hole" at confidence 0.81, class "stain" at 0.65). -/
theorem c9_defect_cycle_effects_witness :
    ([(⟨0, 81/100, 10, 10, 50, 50⟩ : Box), ⟨1, 65/100, 5, 5, 20, 20⟩] ≠ ([] : List Box)) ∧
    (processFrame (fun n => if n = 0 then "hole" else "stain") "12:00:00"
        ⟨0, 0, [], []⟩
        [⟨0, 81/100, 10, 10, 50, 50⟩, ⟨1, 65/100, 5, 5, 20, 20⟩]).defect_log.length =
      ([] : List LogEntry).length + 2 ∧
    (processFrame (fun n => if n = 0 then "hole" else "stain") "12:00:00"
        ⟨0, 0, [], []⟩
        [⟨0, 81/100, 10, 10, 50, 50⟩, ⟨1, 65/100, 5, 5, 20, 20⟩]).defect_frame_count = 0 + 1 ∧
    (processFrame (fun n => if n = 0 then "hole" else "stain") "12:00:00"
        ⟨0, 0, [], []⟩
        [⟨0, 81/100, 10, 10, 50, 50⟩, ⟨1, 65/100, 5, 5, 20, 20⟩]).saved_files = [] := by
  have h := c9_defect_cycle_effects (fun n => if n = 0 then "hole" else "stain") "12:00:00"
    ⟨0, 0, [], []⟩ [⟨0, 81/100, 10, 10, 50, 50⟩, ⟨1, 65/100, 5, 5, 20, 20⟩] (by simp)
  exact ⟨by simp, h.1, h.2.1, h.2.2⟩

/-! ## `to_hex_str` (C10) -/

/-- Helper: the accumulator of `hexLoop` is a pure suffix. -/
theorem hexLoop_append : ∀ (n : Nat) (acc : List Char), hexLoop n acc = hexLoop n [] ++ acc := by
  intro n
  induction n using Nat.strong_induction_on with
  | _ n ih =>
    intro acc
    by_cases h : 16 ≤ n
    · have hdiv : n / 16 < n := Nat.div_lt_self (by omega) (by omega)
      conv_lhs => rw [hexLoop.eq_def]
      conv_rhs => rw [hexLoop.eq_def]
      rw [dif_pos h, dif_pos h, ih _ hdiv (chaDicGet (n % 16) ++ acc),
        ih _ hdiv (chaDicGet (n % 16) ++ [])]
      simp
    · conv_lhs => rw [hexLoop.eq_def]
      conv_rhs => rw [hexLoop.eq_def]
      rw [dif_neg h, dif_neg h]
      simp

/-- Helper: each digit emitted by `chaDic.get(digit, str(digit))` for a
value below 16 is a single lowercase hex character denoting that value,
and is `'0'` only for the value 0. -/
theorem chaDicGet_facts : ∀ d : Nat, d < 16 →
    (chaDicGet d).length = 1 ∧
    (chaDicGet d).all (fun c => (hexCharVal c).isSome) = true ∧
    hexValue (chaDicGet d) = d ∧
    ((chaDicGet d).headI = '0' → d = 0) := by decide

/-- Helper: `hexValue`'s fold from an arbitrary seed. -/
theorem hexValue_foldl (b : List Char) : ∀ s : Nat,
    b.foldl (fun a c => 16 * a + (hexCharVal c).getD 0) s =
      s * 16 ^ b.length + hexValue b := by
  induction b with
  | nil => intro s; simp [hexValue]
  | cons c b ih =>
    intro s
    have hcons : hexValue (c :: b) =
        ((hexCharVal c).getD 0) * 16 ^ b.length + hexValue b := by
      show List.foldl _ (16 * 0 + (hexCharVal c).getD 0) b = _
      rw [ih]
      ring_nf
    simp only [List.foldl_cons, List.length_cons, hcons]
    rw [ih (16 * s + (hexCharVal c).getD 0)]
    ring

/-- Helper: `hexValue` of a concatenation. -/
theorem hexValue_append (a b : List Char) :
    hexValue (a ++ b) = hexValue a * 16 ^ b.length + hexValue b := by
  show List.foldl _ 0 (a ++ b) = _
  rw [List.foldl_append, hexValue_foldl]
  rfl

/-- Helper: full characterisation of `hexLoop n []`: a nonempty string
of lowercase hex digits denoting `n`, starting with `'0'` only when
`n = 0`. -/
theorem hexLoop_spec : ∀ n : Nat,
    1 ≤ (hexLoop n []).length ∧
    (hexLoop n []).all (fun c => (hexCharVal c).isSome) = true ∧
    hexValue (hexLoop n []) = n ∧
    ((hexLoop n []).headI = '0' → n = 0) := by
  intro n
  induction n using Nat.strong_induction_on with
  | _ n ih =>
    by_cases h : 16 ≤ n
    · have hdiv : n / 16 < n := Nat.div_lt_self (by omega) (by omega)
      have hmod : n % 16 < 16 := Nat.mod_lt _ (by omega)
      obtain ⟨hlen, hall, hval, hhead⟩ := ih _ hdiv
      obtain ⟨dlen, dall, dval, dhead⟩ := chaDicGet_facts _ hmod
      have heq : hexLoop n [] = hexLoop (n / 16) [] ++ chaDicGet (n % 16) := by
        conv_lhs => rw [hexLoop.eq_def]
        rw [dif_pos h, hexLoop_append]
        simp
      rw [heq]
      obtain ⟨c, rest, hcons⟩ :=
        List.exists_cons_of_ne_nil (List.length_pos.mp (by omega) :
          hexLoop (n / 16) [] ≠ [])
      refine ⟨?_, ?_, ?_, ?_⟩
      · simp only [List.length_append]
        omega
      · simp [List.all_append, hall, dall]
      · rw [hexValue_append, hval, dval, dlen]
        omega
      · intro hz
        rw [hcons] at hz hhead
        simp at hz
        have hq : n / 16 = 0 := hhead (by simp [hz])
        omega
    · have hlt : n < 16 := by omega
      obtain ⟨dlen, dall, dval, dhead⟩ := chaDicGet_facts n hlt
      have heq : hexLoop n [] = chaDicGet n := by
        conv_lhs => rw [hexLoop.eq_def]
        rw [dif_neg h]
        simp
      rw [heq]
      exact ⟨by omega, dall, dval, dhead⟩

/-- Claim C10: for `-2^32 ≤ num < 2^32`, `to_hex_str num` is a
nonempty string of lowercase hexadecimal digit characters (no prefix),
has no leading zero (it starts with `'0'` only when it is exactly
`"0"`), and denotes, as a base-16 numeral, `num` itself when `num ≥ 0`
and `num + 2^32` when `num < 0`. -/
theorem c10_to_hex_str (num : Int) (h1 : -(2 ^ 32) ≤ num) (h2 : num < 2 ^ 32) :
    1 ≤ (to_hex_str num).length ∧
    (to_hex_str num).all (fun c => (hexCharVal c).isSome) = true ∧
    (hexValue (to_hex_str num) : Int) = (if num < 0 then num + 2 ^ 32 else num) ∧
    ((to_hex_str num).headI = '0' → to_hex_str num = ['0']) := by
  have hnn : 0 ≤ (if num < 0 then num + 2 ^ 32 else num) := by
    by_cases hneg : num < 0 <;> simp [hneg] <;> omega
  have hform : to_hex_str num = hexLoop (if num < 0 then num + 2 ^ 32 else num).toNat [] := rfl
  obtain ⟨hlen, hall, hval, hhead⟩ :=
    hexLoop_spec (if num < 0 then num + 2 ^ 32 else num).toNat
  rw [hform]
  refine ⟨hlen, hall, ?_, ?_⟩
  · rw [hval, Int.toNat_of_nonneg hnn]
  · intro hz
    have h0 : (if num < 0 then num + 2 ^ 32 else num).toNat = 0 := hhead hz
    rw [h0, hexLoop.eq_def, dif_neg (by omega : ¬ 16 ≤ 0)]
    rfl

/-- Witness for C10 at `num = -1`: the value of the rendered string is
`-1 + 2^32 = 4294967295` (i.e. `"ffffffff"`). -/
theorem c10_to_hex_str_witness :
    (-(2 ^ 32) : Int) ≤ -1 ∧ (-1 : Int) < 2 ^ 32 ∧
      (hexValue (to_hex_str (-1)) : Int) =
        (if (-1 : Int) < 0 then -1 + 2 ^ 32 else -1) :=
  ⟨by decide, by decide, (c10_to_hex_str (-1) (by decide) (by decide)).2.2.1⟩

end DefectDetection
